import Mathlib

/-
Shallow embedding of the xcube-server tile pyramid core:
`xcube_server/im/tiledimage.py` and `xcube_server/utils.py`.
The Cache, GeoExtent and TileGrid modules are not part of the source tree,
so their interface behavior is modelled from the specification where needed;
every such definition is marked `Modelled from the spec:` in its doc comment.
Python values that may be `None` are embedded as `Option`; Python exceptions
are embedded as `Except String`.
-/

namespace XcubeServer

/-- Modelled from the spec: the generic tile cache (module `cache.py`, absent
from the source tree) observed through its interface
`get(id) -> payload | absent`, `put(id, payload)`, `remove(id)`.
A stored Python `None` is indistinguishable from an absent entry for `get`,
so the cache is a map from string keys to optional payloads. -/
def Cache (α : Type) : Type := String → Option α

/-- Embeds `Cache.get_value`: return the payload stored under `k`, or absent. -/
def Cache.getValue (c : Cache α) (k : String) : Option α := c k

/-- Embeds `Cache.put_value`: store the (possibly `None`) payload `v` under `k`. -/
def Cache.putValue (c : Cache α) (k : String) (v : Option α) : Cache α :=
  fun q => if q = k then v else c q

/-- Embeds `Cache.remove_value`: remove the entry stored under `k`. -/
def Cache.removeValue (c : Cache α) (k : String) : Cache α :=
  fun q => if q = k then none else c q

/-- An `OpImage` (tiledimage.py lines 183-258): an image that computes its
tiles via `compute_tile(tile_x, tile_y, rectangle)` and optionally memoizes
them in an attached cache.  The abstract `compute_tile` method is a field;
`hasCache` embeds `self._tile_cache is not None`. -/
structure OpImage (α : Type) where
  id : String
  tileWidth : ℕ
  tileHeight : ℕ
  numTilesX : ℕ
  numTilesY : ℕ
  compute : ℕ → ℕ → ℕ × ℕ × ℕ × ℕ → Option α
  hasCache : Bool

/-- Embeds `AbstractTiledImage.get_tile_id` (tiledimage.py lines 179-180):
the format string "%s/%d/%d" applied to `(self.id, tile_x, tile_y)`. -/
def OpImage.getTileId (img : OpImage α) (tileX tileY : ℕ) : String :=
  img.id ++ "/" ++ toString tileX ++ "/" ++ toString tileY

/-- Embeds `OpImage.get_tile` (tiledimage.py lines 208-231): query the cache under
the tile id when a cache is attached and return a non-`None` hit; otherwise
compute the tile for rectangle `(tw*x, th*y, tw, th)` and, when a cache is
attached, store the result under the same key.  Returns the tile together
with the updated cache state. -/
def OpImage.getTile (img : OpImage α) (c : Cache α) (tileX tileY : ℕ) :
    Option α × Cache α :=
  if img.hasCache then
    match c.getValue (img.getTileId tileX tileY) with
    | some tile => (some tile, c)
    | none =>
      let tile := img.compute tileX tileY
        (img.tileWidth * tileX, img.tileHeight * tileY, img.tileWidth, img.tileHeight)
      (tile, c.putValue (img.getTileId tileX tileY) tile)
  else
    (img.compute tileX tileY
      (img.tileWidth * tileX, img.tileHeight * tileY, img.tileWidth, img.tileHeight), c)

/-- Embeds `OpImage.dispose` (tiledimage.py lines 245-251): when a cache is attached,
remove the cache entry of every tile id
`for tile_y in range(num_tiles_y): for tile_x in range(num_tiles_x)`. -/
def OpImage.dispose (img : OpImage α) (c : Cache α) : Cache α :=
  if img.hasCache then
    (List.range img.numTilesY).foldl
      (fun cy tileY =>
        (List.range img.numTilesX).foldl
          (fun cx tileX => cx.removeValue (img.getTileId tileX tileY)) cy)
      c
  else c

/-- An `ImagePyramid` (tiledimage.py lines 737-852), reduced to the list of
its level images; level 0 is the lowest resolution. -/
structure ImagePyramid (α : Type) where
  levels : List (OpImage α)

/-- Embeds `ImagePyramid.get_tile` (tiledimage.py lines 840-842): direct delegation
to `self._level_images[z_index].get_tile(tile_x, tile_y)`; `none` embeds the
`IndexError` raised for an out-of-range level index. -/
def ImagePyramid.getTile (p : ImagePyramid α) (c : Cache α) (tileX tileY z : ℕ) :
    Option (Option α × Cache α) :=
  match p.levels.get? z with
  | some img => some (img.getTile c tileX tileY)
  | none => none

/-- Embeds `ImagePyramid.dispose` (tiledimage.py lines 844-846): dispose every level
image in order. -/
def ImagePyramid.dispose (p : ImagePyramid α) (c : Cache α) : Cache α :=
  p.levels.foldl (fun cc img => img.dispose cc) c

/-- Embeds `DecoratorImage.compute_tile` (tiledimage.py lines 296-301): fetch the
source tile; when it is `None` the target tile stays `None`, otherwise apply
`compute_tile_from_source_tile` (the transform `f`, whose Python result may
itself be any value including `None`). -/
def decoratorComputeTile (f : β → Option α) (sourceTile : Option β) : Option α :=
  match sourceTile with
  | none => none
  | some s => f s

lemma Cache.getValue_putValue_self (c : Cache α) (k : String) (v : Option α) :
    (c.putValue k v).getValue k = v := by
  simp [Cache.putValue, Cache.getValue]

lemma Cache.putValue_putValue_self (c : Cache α) (k : String) (v w : Option α) :
    (c.putValue k v).putValue k w = c.putValue k w := by
  funext q
  simp only [Cache.putValue]
  split <;> rfl

lemma Cache.getValue_removeValue_self (c : Cache α) (k : String) :
    (c.removeValue k).getValue k = none := by
  simp [Cache.removeValue, Cache.getValue]

/-- The pixel rectangle passed to `compute_tile` by `OpImage.get_tile`. -/
def OpImage.rect (img : OpImage α) (tileX tileY : ℕ) : ℕ × ℕ × ℕ × ℕ :=
  (img.tileWidth * tileX, img.tileHeight * tileY, img.tileWidth, img.tileHeight)

lemma OpImage.getTile_hit (img : OpImage α) (c : Cache α) (x y : ℕ) (t : α)
    (hc : img.hasCache = true) (ht : c.getValue (img.getTileId x y) = some t) :
    img.getTile c x y = (some t, c) := by
  simp [OpImage.getTile, hc, ht]

lemma OpImage.getTile_miss (img : OpImage α) (c : Cache α) (x y : ℕ)
    (hc : img.hasCache = true) (ht : c.getValue (img.getTileId x y) = none) :
    img.getTile c x y =
      (img.compute x y (img.rect x y),
       c.putValue (img.getTileId x y) (img.compute x y (img.rect x y))) := by
  simp [OpImage.getTile, OpImage.rect, hc, ht]

lemma OpImage.getTile_noCache (img : OpImage α) (c : Cache α) (x y : ℕ)
    (hc : img.hasCache = false) :
    img.getTile c x y = (img.compute x y (img.rect x y), c) := by
  simp [OpImage.getTile, OpImage.rect, hc]

/-- C1: for every `OpImage` with an attached cache and every tile index,
`get_tile` first checks the cache under the key built by `get_tile_id`;
a non-absent cached value is returned as is; on a miss the result of
`compute_tile(tile_x, tile_y, (tw*tile_x, th*tile_y, tw, th))` is returned
and stored under the same key.  With no cache attached, `get_tile` always
returns the `compute_tile` result and leaves the cache untouched. -/
theorem opImage_getTile_cache_contract (img : OpImage α) (c : Cache α) (x y : ℕ) :
    (img.hasCache = true →
      (∀ t, c.getValue (img.getTileId x y) = some t → img.getTile c x y = (some t, c)) ∧
      (c.getValue (img.getTileId x y) = none →
        img.getTile c x y =
          (img.compute x y (img.tileWidth * x, img.tileHeight * y, img.tileWidth, img.tileHeight),
           c.putValue (img.getTileId x y)
             (img.compute x y (img.tileWidth * x, img.tileHeight * y, img.tileWidth, img.tileHeight))))) ∧
    (img.hasCache = false →
      img.getTile c x y =
        (img.compute x y (img.tileWidth * x, img.tileHeight * y, img.tileWidth, img.tileHeight), c)) := by
  constructor
  · intro hc
    constructor
    · intro t ht
      simp [OpImage.getTile, hc, ht]
    · intro ht
      simp [OpImage.getTile, hc, ht]
  · intro hc
    simp [OpImage.getTile, hc]

/-- A concrete tiled image used by witnesses. -/
def witImg : OpImage ℕ :=
  ⟨"im", 4, 3, 2, 2, fun tx ty _ => some (10 * tx + ty), true⟩

/-- A concrete cache state holding a tile for `witImg` at (1, 2). -/
def witCacheHit : Cache ℕ := fun k => if k = "im/1/2" then some 99 else none

theorem opImage_getTile_cache_contract_witness :
    witImg.getTile witCacheHit 1 2 = (some 99, witCacheHit) :=
  ((opImage_getTile_cache_contract witImg witCacheHit 1 2).1 rfl).1 99 rfl

/-- C2: `ImagePyramid.get_tile(x, y, z)` delegates to level image `z`, and
with `compute_tile` a pure function (a function field of the embedding) the
call is idempotent: repeating the call on the cache state left by the first
call returns the identical tile and cache state, and when the first call was
a cache miss, evicting the entry and calling again recomputes the identical
payload. -/
theorem pyramid_getTile_idempotent (p : ImagePyramid α) (img : OpImage α) (c : Cache α)
    (x y z : ℕ) (himg : p.levels.get? z = some img) :
    p.getTile c x y z = some (img.getTile c x y) ∧
    img.getTile (img.getTile c x y).2 x y = img.getTile c x y ∧
    (c.getValue (img.getTileId x y) = none →
      (img.getTile ((img.getTile c x y).2.removeValue (img.getTileId x y)) x y).1 =
        (img.getTile c x y).1) := by
  refine ⟨by unfold ImagePyramid.getTile; rw [himg], ?_, ?_⟩
  · by_cases hc : img.hasCache
    · rcases hov : c.getValue (img.getTileId x y) with _ | t
      · rcases hcomp : img.compute x y
          (img.tileWidth * x, img.tileHeight * y, img.tileWidth, img.tileHeight) with _ | t
        · simp [OpImage.getTile, hc, hov, hcomp, Cache.getValue_putValue_self,
                Cache.putValue_putValue_self]
        · simp [OpImage.getTile, hc, hov, hcomp, Cache.getValue_putValue_self]
      · simp [OpImage.getTile, hc, hov]
    · simp [OpImage.getTile, hc]
  · intro hov
    by_cases hc : img.hasCache
    · simp [OpImage.getTile, hc, hov, Cache.getValue_removeValue_self]
    · simp [OpImage.getTile, hc]

/-- A one-level pyramid over `witImg`, used by witnesses. -/
def witPyramid : ImagePyramid ℕ := ⟨[witImg]⟩

/-- The empty cache state over ℕ payloads. -/
def witCacheEmpty : Cache ℕ := fun _ => none

theorem pyramid_getTile_idempotent_witness :
    witPyramid.getTile witCacheEmpty 1 2 0 = some (witImg.getTile witCacheEmpty 1 2) ∧
    (witImg.getTile ((witImg.getTile witCacheEmpty 1 2).2.removeValue
        (witImg.getTileId 1 2)) 1 2).1 = (witImg.getTile witCacheEmpty 1 2).1 := by
  have h := pyramid_getTile_idempotent witPyramid witImg witCacheEmpty 1 2 0 rfl
  exact ⟨h.1, h.2.2 rfl⟩

lemma OpImage.getTileId_updateCompute (img : OpImage α)
    (g : ℕ → ℕ → ℕ × ℕ × ℕ × ℕ → Option α) (x y : ℕ) :
    OpImage.getTileId { img with compute := g } x y = img.getTileId x y := rfl

/-- C10: a `DecoratorImage` whose source tile is absent computes an absent
tile without invoking the per-tile transform (the result is `none` for every
transform `f`), and an absent result stored by `OpImage.get_tile` is treated
as a cache miss: every later `get_tile` for that index returns the result of
the current `compute_tile` function (here an arbitrary `g`), i.e. it
recomputes from the source instead of serving the cache. -/
theorem decorator_absent_tile_contract (img : OpImage α) (c : Cache α) (x y : ℕ) :
    (∀ f : β → Option α, decoratorComputeTile f none = none) ∧
    ((img.getTile c x y).1 = none →
      ∀ g, (OpImage.getTile { img with compute := g } (img.getTile c x y).2 x y).1 =
        g x y (img.tileWidth * x, img.tileHeight * y, img.tileWidth, img.tileHeight)) := by
  refine ⟨fun f => rfl, ?_⟩
  intro h g
  rcases Bool.dichotomy img.hasCache with hc | hc
  · have h2 : (img.getTile c x y).2 = c :=
      congrArg Prod.snd (img.getTile_noCache c x y hc)
    rw [h2, OpImage.getTile_noCache { img with compute := g } c x y
      (show OpImage.hasCache { img with compute := g } = false from hc)]
    rfl
  · rcases hov : c.getValue (img.getTileId x y) with _ | t
    · have hmiss := img.getTile_miss c x y hc hov
      have hcomp : img.compute x y (img.rect x y) = none := by
        rw [hmiss] at h; exact h
      have hst : (img.getTile c x y).2 = c.putValue (img.getTileId x y) none := by
        rw [hmiss, hcomp]
      have hov2 : ((img.getTile c x y).2).getValue
          (OpImage.getTileId { img with compute := g } x y) = none := by
        rw [OpImage.getTileId_updateCompute, hst, Cache.getValue_putValue_self]
      rw [OpImage.getTile_miss { img with compute := g } _ x y
        (show OpImage.hasCache { img with compute := g } = true from hc) hov2]
      rfl
    · exfalso
      rw [img.getTile_hit c x y t hc hov] at h
      exact Option.noConfusion h

/-- An image like `witImg` whose `compute_tile` returns an absent tile. -/
def witImgAbsent : OpImage ℕ :=
  ⟨"im", 4, 3, 2, 2, fun _ _ _ => none, true⟩

theorem decorator_absent_tile_contract_witness :
    decoratorComputeTile (fun s : ℕ => some s) none = none ∧
    (OpImage.getTile { witImgAbsent with compute := fun tx ty _ => some (tx + ty) }
        (witImgAbsent.getTile witCacheEmpty 1 2).2 1 2).1 = some 3 := by
  have h := decorator_absent_tile_contract (β := ℕ) witImgAbsent witCacheEmpty 1 2
  exact ⟨h.1 (fun s : ℕ => some s), h.2 rfl (fun tx ty _ => some (tx + ty))⟩

lemma removeRow_apply_ne (img : OpImage α) (ty n : ℕ) (c : Cache α) (k : String)
    (hk : ∀ tx, tx < n → k ≠ img.getTileId tx ty) :
    ((List.range n).foldl (fun cx tx => cx.removeValue (img.getTileId tx ty)) c) k = c k := by
  induction n generalizing c with
  | zero => rfl
  | succ m ih =>
    rw [List.range_succ, List.foldl_append]
    have h1 : ((List.range m).foldl
        (fun cx tx => cx.removeValue (img.getTileId tx ty)) c) k = c k :=
      ih c (fun tx htx => hk tx (Nat.lt_succ_of_lt htx))
    simp only [List.foldl_cons, List.foldl_nil, Cache.removeValue]
    rw [if_neg (hk m (Nat.lt_succ_self m)), h1]

lemma removeRow_none_stable (img : OpImage α) (ty n : ℕ) (c : Cache α) (k : String)
    (h : c k = none) :
    ((List.range n).foldl (fun cx tx => cx.removeValue (img.getTileId tx ty)) c) k = none := by
  induction n generalizing c with
  | zero => exact h
  | succ m ih =>
    rw [List.range_succ, List.foldl_append]
    simp only [List.foldl_cons, List.foldl_nil, Cache.removeValue]
    split
    · rfl
    · exact ih c h

lemma removeRow_apply_hit (img : OpImage α) (ty n tx : ℕ) (c : Cache α) (hx : tx < n) :
    ((List.range n).foldl (fun cx t => cx.removeValue (img.getTileId t ty)) c)
      (img.getTileId tx ty) = none := by
  induction n generalizing c with
  | zero => exact absurd hx (Nat.not_lt_zero tx)
  | succ m ih =>
    rw [List.range_succ, List.foldl_append]
    simp only [List.foldl_cons, List.foldl_nil, Cache.removeValue]
    split
    · rfl
    · rename_i hne
      have htx : tx < m := by
        rcases Nat.lt_succ_iff_lt_or_eq.mp hx with h | h
        · exact h
        · exact absurd (by rw [h]) hne
      exact ih c htx

lemma dispose_apply_ne (img : OpImage α) (c : Cache α) (k : String)
    (hk : ∀ x y, x < img.numTilesX → y < img.numTilesY → k ≠ img.getTileId x y) :
    img.dispose c k = c k := by
  unfold OpImage.dispose
  split
  · rename_i hc
    generalize hn : img.numTilesY = n
    rw [hn] at hk
    clear hn
    induction n generalizing c with
    | zero => rfl
    | succ m ih =>
      rw [List.range_succ, List.foldl_append]
      simp only [List.foldl_cons, List.foldl_nil]
      rw [removeRow_apply_ne img m img.numTilesX _ k
        (fun tx htx => hk tx m htx (Nat.lt_succ_self m))]
      exact ih c (fun x y hx hy => hk x y hx (Nat.lt_succ_of_lt hy))
  · rfl

lemma dispose_none_stable (img : OpImage α) (c : Cache α) (k : String)
    (h : c k = none) : img.dispose c k = none := by
  unfold OpImage.dispose
  split
  · generalize img.numTilesY = n
    induction n generalizing c with
    | zero => exact h
    | succ m ih =>
      rw [List.range_succ, List.foldl_append]
      simp only [List.foldl_cons, List.foldl_nil]
      exact removeRow_none_stable img m img.numTilesX _ k (ih c h)
  · exact h

lemma dispose_apply_hit (img : OpImage α) (c : Cache α) (x y : ℕ)
    (hc : img.hasCache = true) (hx : x < img.numTilesX) (hy : y < img.numTilesY) :
    img.dispose c (img.getTileId x y) = none := by
  unfold OpImage.dispose
  rw [if_pos hc]
  generalize hn : img.numTilesY = n
  rw [hn] at hy
  clear hn
  induction n generalizing c with
  | zero => exact absurd hy (Nat.not_lt_zero y)
  | succ m ih =>
    rw [List.range_succ, List.foldl_append]
    simp only [List.foldl_cons, List.foldl_nil]
    rcases Nat.lt_succ_iff_lt_or_eq.mp hy with h | h
    · exact removeRow_none_stable img m img.numTilesX _ _ (ih c h)
    · subst h
      exact removeRow_apply_hit img y img.numTilesX x _ hx

lemma pyramidDispose_none_stable (levels : List (OpImage α)) (c : Cache α) (k : String)
    (h : c k = none) : (levels.foldl (fun cc img => img.dispose cc) c) k = none := by
  induction levels generalizing c with
  | nil => exact h
  | cons l ls ih => exact ih (l.dispose c) (dispose_none_stable l c k h)

lemma dispose_noCache (img : OpImage α) (c : Cache α) (hc : img.hasCache = false) :
    img.dispose c = c := by
  unfold OpImage.dispose
  rw [if_neg (by simp [hc])]

lemma pyramidDispose_apply_hit (levels : List (OpImage α)) (c : Cache α)
    (img : OpImage α) (him : img ∈ levels) (hc : img.hasCache = true)
    (x y : ℕ) (hx : x < img.numTilesX) (hy : y < img.numTilesY) :
    (levels.foldl (fun cc i => i.dispose cc) c) (img.getTileId x y) = none := by
  induction levels generalizing c with
  | nil => exact absurd him (List.not_mem_nil img)
  | cons l ls ih =>
    rcases List.mem_cons.mp him with h | h
    · subst h
      exact pyramidDispose_none_stable ls _ _ (dispose_apply_hit img c x y hc hx hy)
    · exact ih (l.dispose c) h

lemma pyramidDispose_apply_ne (levels : List (OpImage α)) (c : Cache α) (k : String)
    (hk : ∀ img ∈ levels, img.hasCache = true →
      ∀ x y, x < img.numTilesX → y < img.numTilesY → k ≠ img.getTileId x y) :
    (levels.foldl (fun cc i => i.dispose cc) c) k = c k := by
  induction levels generalizing c with
  | nil => rfl
  | cons l ls ih =>
    have h1 : l.dispose c k = c k := by
      rcases Bool.dichotomy l.hasCache with hcl | hcl
      · rw [dispose_noCache l c hcl]
      · exact dispose_apply_ne l c k (hk l (List.mem_cons_self l ls) hcl)
    have h2 := ih (l.dispose c) (fun img him => hk img (List.mem_cons_of_mem l him))
    rw [List.foldl_cons, h2, h1]

/-- C7: `ImagePyramid.dispose` removes, for every level image with an attached
cache, the cache entry of every in-range tile id `"{id}/{tile_x}/{tile_y}"`,
and leaves every cache entry whose key is none of those tile ids unchanged. -/
theorem pyramid_dispose_purges (p : ImagePyramid α) (c : Cache α) :
    (∀ img ∈ p.levels, img.hasCache = true →
       ∀ x y, x < img.numTilesX → y < img.numTilesY →
         (p.dispose c).getValue (img.getTileId x y) = none) ∧
    (∀ k, (∀ img ∈ p.levels, img.hasCache = true →
        ∀ x y, x < img.numTilesX → y < img.numTilesY → k ≠ img.getTileId x y) →
      (p.dispose c).getValue k = c.getValue k) := by
  constructor
  · intro img him hc x y hx hy
    exact pyramidDispose_apply_hit p.levels c img him hc x y hx hy
  · intro k hk
    exact pyramidDispose_apply_ne p.levels c k hk

/-- A cache state holding a tile of `witImg` plus an unrelated entry. -/
def witCacheTwo : Cache ℕ :=
  fun k => if k = "im/1/1" then some 7 else if k = "other" then some 8 else none

theorem pyramid_dispose_purges_witness :
    (witPyramid.dispose witCacheTwo).getValue "im/1/1" = none ∧
    (witPyramid.dispose witCacheTwo).getValue "other" = some 8 := by
  have h := pyramid_dispose_purges witPyramid witCacheTwo
  constructor
  · have h1 := h.1 witImg (List.mem_singleton.mpr rfl) rfl 1 1
      (by decide) (by decide)
    exact h1
  · have h2 := h.2 "other" (by
      intro img him hc x y hx hy
      rw [List.mem_singleton.mp him] at hx hy ⊢
      have hx2 : x < 2 := hx
      have hy2 : y < 2 := hy
      interval_cases x <;> interval_cases y <;> decide)
    exact h2

/-- A 2-D numpy-like array over element type `α`: a `(height, width)` shape
together with an index function `(row, column) ↦ value` (numpy arrays are
shape plus an index mapping; values outside the shape are irrelevant junk). -/
structure Arr (α : Type) where
  h : ℕ
  w : ℕ
  data : ℕ → ℕ → α

/-- Embeds `np.empty(shape)` followed by `.fill(fill_value)`. -/
def filled (h w : ℕ) (v : α) : Arr α := ⟨h, w, fun _ _ => v⟩

/-- Embeds `np.hstack((a, b))` for 2-D arrays: concatenate columns; mismatching row
counts raise a `ValueError`. -/
def hstack (a b : Arr α) : Except String (Arr α) :=
  if a.h = b.h then
    .ok ⟨a.h, a.w + b.w, fun i j => if j < a.w then a.data i j else b.data i (j - a.w)⟩
  else .error "ValueError"

/-- Embeds `np.vstack((a, b))` for 2-D arrays: concatenate rows; mismatching column
counts raise a `ValueError`. -/
def vstack (a b : Arr α) : Except String (Arr α) :=
  if a.w = b.w then
    .ok ⟨a.h + b.h, a.w, fun i j => if i < a.h then a.data i j else b.data (i - a.h) j⟩
  else .error "ValueError"

/-- Embeds the crop `tile[..., 0:eh, 0:ew]`. -/
def cropTo (a : Arr α) (eh ew : ℕ) : Arr α := ⟨min eh a.h, min ew a.w, a.data⟩

/-- Embeds `trim_tile` (tiledimage.py lines 871-897): pad a too-small tile on the
right/bottom with `fill_value` (`np.nan` by default at call sites), crop a
too-large tile to the expected size.  The horizontal pad is built with the
original tile height and the vertical pad with the expected width, exactly
as in the source; the `np.vstack` shape mismatch this can produce surfaces
as the embedded `ValueError`. -/
def trim_tile (tile : Arr α) (expected_tile_size : ℕ × ℕ) (fill_value : α) :
    Except String (Arr α) :=
  let expectedWidth := expected_tile_size.1
  let expectedHeight := expected_tile_size.2
  let actualWidth := tile.w
  let actualHeight := tile.h
  match (if expectedWidth > actualWidth then
      hstack tile (filled actualHeight (expectedWidth - actualWidth) fill_value)
    else .ok tile) with
  | .error e => .error e
  | .ok t1 =>
    match (if expectedHeight > actualHeight then
        vstack t1 (filled (expectedHeight - actualHeight) expectedWidth fill_value)
      else .ok t1) with
    | .error e => .error e
    | .ok t2 =>
      .ok (if expectedWidth < actualWidth ∨ expectedHeight < actualHeight then
          cropTo t2 expectedHeight expectedWidth
        else t2)

/-- C3: trimming a 2-D tile to a declared size `(W, H)`: a smaller tile is
padded with the fill value in the missing rightmost columns and bottom rows,
a larger tile is cropped; in both cases the result has shape `(H, W)` and
agrees with the top-left-aligned overlap region of the input tile. -/
theorem trim_tile_pads_and_crops (tile : Arr α) (W H : ℕ) (fill : α)
    (hcase : (tile.w ≤ W ∧ tile.h ≤ H) ∨ (W ≤ tile.w ∧ H ≤ tile.h)) :
    ∃ r, trim_tile tile (W, H) fill = .ok r ∧
      r.h = H ∧ r.w = W ∧
      (∀ i j, i < min tile.h H → j < min tile.w W → r.data i j = tile.data i j) ∧
      (tile.w ≤ W → tile.h ≤ H →
        ∀ i j, i < H → j < W → (tile.h ≤ i ∨ tile.w ≤ j) → r.data i j = fill) := by
  rcases hcase with ⟨hw, hh⟩ | ⟨hw, hh⟩
  · -- the tile is (weakly) smaller than the declared size: padding
    rcases Nat.lt_or_ge tile.w W with hwlt | hwge
    · rcases Nat.lt_or_ge tile.h H with hhlt | hhge
      · -- pad in both directions
        have heq : trim_tile tile (W, H) fill =
            .ok ⟨tile.h + (H - tile.h), tile.w + (W - tile.w),
              fun i j =>
                if i < tile.h then (if j < tile.w then tile.data i j else fill)
                else fill⟩ := by
          unfold trim_tile hstack vstack filled
          dsimp only
          rw [if_pos (show W > tile.w from hwlt)]
          rw [if_pos (show tile.h = tile.h from rfl)]
          dsimp only
          rw [if_pos (show H > tile.h from hhlt)]
          rw [if_pos (show tile.w + (W - tile.w) = W by omega)]
          dsimp only
          rw [if_neg (show ¬(W < tile.w ∨ H < tile.h) by omega)]
        refine ⟨_, heq, by dsimp only; omega, by dsimp only; omega, ?_, ?_⟩
        · intro i j hi hj
          dsimp only
          rw [if_pos (show i < tile.h by omega), if_pos (show j < tile.w by omega)]
        · intro _ _ i j hi hj hor
          dsimp only
          rcases hor with hi2 | hj2
          · rw [if_neg (show ¬ i < tile.h by omega)]
          · by_cases hcase2 : i < tile.h
            · rw [if_pos hcase2, if_neg (show ¬ j < tile.w by omega)]
            · rw [if_neg hcase2]
      · -- pad only in width (heights agree)
        have hhe : tile.h = H := le_antisymm hh hhge
        have heq : trim_tile tile (W, H) fill =
            .ok ⟨tile.h, tile.w + (W - tile.w),
              fun i j => if j < tile.w then tile.data i j else fill⟩ := by
          unfold trim_tile hstack vstack filled
          dsimp only
          rw [if_pos (show W > tile.w from hwlt)]
          rw [if_pos (show tile.h = tile.h from rfl)]
          dsimp only
          rw [if_neg (show ¬ H > tile.h by omega)]
          dsimp only
          rw [if_neg (show ¬(W < tile.w ∨ H < tile.h) by omega)]
        refine ⟨_, heq, by dsimp only; omega, by dsimp only; omega, ?_, ?_⟩
        · intro i j hi hj
          dsimp only
          rw [if_pos (show j < tile.w by omega)]
        · intro _ _ i j hi hj hor
          dsimp only
          rcases hor with hi2 | hj2
          · omega
          · rw [if_neg (show ¬ j < tile.w by omega)]
    · -- widths agree
      have hwe : tile.w = W := le_antisymm hw hwge
      rcases Nat.lt_or_ge tile.h H with hhlt | hhge
      · -- pad only in height
        have heq : trim_tile tile (W, H) fill =
            .ok ⟨tile.h + (H - tile.h), tile.w,
              fun i j => if i < tile.h then tile.data i j else fill⟩ := by
          unfold trim_tile hstack vstack filled
          dsimp only
          rw [if_neg (show ¬ W > tile.w by omega)]
          dsimp only
          rw [if_pos (show H > tile.h from hhlt)]
          rw [if_pos hwe]
          dsimp only
          rw [if_neg (show ¬(W < tile.w ∨ H < tile.h) by omega)]
        refine ⟨_, heq, by dsimp only; omega, by dsimp only; omega, ?_, ?_⟩
        · intro i j hi hj
          dsimp only
          rw [if_pos (show i < tile.h by omega)]
        · intro _ _ i j hi hj hor
          dsimp only
          rcases hor with hi2 | hj2
          · rw [if_neg (show ¬ i < tile.h by omega)]
          · omega
      · -- sizes agree exactly: identity
        have hhe : tile.h = H := le_antisymm hh hhge
        have heq : trim_tile tile (W, H) fill = .ok tile := by
          unfold trim_tile hstack vstack filled
          dsimp only
          rw [if_neg (show ¬ W > tile.w by omega)]
          dsimp only
          rw [if_neg (show ¬ H > tile.h by omega)]
          dsimp only
          rw [if_neg (show ¬(W < tile.w ∨ H < tile.h) by omega)]
        exact ⟨tile, heq, hhe, hwe, fun i j _ _ => rfl,
          fun _ _ i j hi hj hor => by omega⟩
  · -- the tile is (weakly) larger than the declared size: cropping
    by_cases hstrict : W < tile.w ∨ H < tile.h
    · have heq : trim_tile tile (W, H) fill = .ok (cropTo tile H W) := by
        unfold trim_tile hstack vstack filled
        dsimp only
        rw [if_neg (show ¬ W > tile.w by omega)]
        dsimp only
        rw [if_neg (show ¬ H > tile.h by omega)]
        dsimp only
        rw [if_pos hstrict]
      refine ⟨_, heq, ?_, ?_, ?_, ?_⟩
      · dsimp only [cropTo]
        omega
      · dsimp only [cropTo]
        omega
      · intro i j _ _
        rfl
      · intro hw2 hh2 i j hi hj hor
        omega
    · have hwe : tile.w = W := by omega
      have hhe : tile.h = H := by omega
      have heq : trim_tile tile (W, H) fill = .ok tile := by
        unfold trim_tile hstack vstack filled
        dsimp only
        rw [if_neg (show ¬ W > tile.w by omega)]
        dsimp only
        rw [if_neg (show ¬ H > tile.h by omega)]
        dsimp only
        rw [if_neg hstrict]
      exact ⟨tile, heq, hhe, hwe, fun i j _ _ => rfl,
        fun _ _ i j hi hj hor => by omega⟩

theorem trim_tile_pads_and_crops_witness :
    ∃ r, trim_tile ⟨1, 2, fun _ _ => (3 : ℤ)⟩ (4, 3) 0 = .ok r ∧
      r.h = 3 ∧ r.w = 4 ∧ r.data 0 0 = 3 ∧ r.data 2 3 = 0 := by
  obtain ⟨r, hr, hh, hw, hover, hpad⟩ :=
    trim_tile_pads_and_crops ⟨1, 2, fun _ _ => (3 : ℤ)⟩ 4 3 0
      (Or.inl (by constructor <;> decide))
  exact ⟨r, hr, hh, hw, hover 0 0 (by decide) (by decide),
    hpad (by decide) (by decide) 2 3 (by decide) (by decide) (Or.inl (by decide))⟩

/-- Embeds `a[..., y:y+h, x:x+w]`: the unstrided window.  A basic slice `l[a:b]`
keeps indices `a ≤ i < min b len`, so the window has shape
`(min (y+h) a.h - y, min (x+w) a.w - x)` and index map `(i, j) ↦ (y+i, x+j)`
(numpy slicing adjusts shape and offsets the index map). -/
def arrSlice2 (a : Arr α) (x y w h : ℕ) : Arr α :=
  ⟨min (y + h) a.h - y, min (x + w) a.w - x, fun i j => a.data (y + i) (x + j)⟩

/-- Embeds `a[..., ::s, ::s]`: subsample both trailing axes with step `s ≥ 1`;
`len(range(0, n, s)) = ⌈n/s⌉ = (n + s - 1) / s`. -/
def arrStride2 (a : Arr α) (s : ℕ) : Arr α :=
  ⟨(a.h + s - 1) / s, (a.w + s - 1) / s, fun i j => a.data (i * s) (j * s)⟩

/-- Embeds `a[..., y:y+h:s, x:x+w:s]`: the direct strided window in the
wording of the spec, keeping indices `y + k*s < min (y+h) a.h`. -/
def arrSliceStep2 (a : Arr α) (x y w h s : ℕ) : Arr α :=
  ⟨(min (y + h) a.h - y + s - 1) / s, (min (x + w) a.w - x + s - 1) / s,
   fun i j => a.data (y + i * s) (x + j * s)⟩

/-- Embeds `FastNdarrayDownsamplingImage.compute_tile` (tiledimage.py lines 653-693):
scale the tile rectangle by `step_size = 1 << step_exp`, read the unstrided
window `array[..., y:y+h, x:x+w]` (the `.load()` materialization is a
semantic no-op), subsample it in memory as `tile[..., ::s, ::s]`, and trim
to the tile size with the default `np.nan` fill (`fill` stands for NaN). -/
def fastComputeTile (array : Arr α) (tile_size : ℕ × ℕ) (step_exp : ℕ) (fill : α)
    (rectangle : ℕ × ℕ × ℕ × ℕ) : Except String (Arr α) :=
  let s := 2 ^ step_exp
  let x := rectangle.1 * s
  let y := rectangle.2.1 * s
  let w := rectangle.2.2.1 * s
  let h := rectangle.2.2.2 * s
  let tile := arrSlice2 array x y w h
  let tile := arrStride2 tile s
  trim_tile tile tile_size fill

/-- C9: materializing the unstrided window and subsampling it in memory is
element-wise identical (same shape, same elements) to the direct strided
window read, for every array, offset and stride `s = 2^step_exp`; hence
`FastNdarrayDownsamplingImage.compute_tile` equals `trim_tile` applied to
the direct strided window of the scaled rectangle. -/
theorem fast_downsampling_strided_read_equiv (a : Arr α) (x y w h e : ℕ)
    (tw th : ℕ) (fill : α) :
    (arrStride2 (arrSlice2 a x y w h) (2 ^ e)).h = (arrSliceStep2 a x y w h (2 ^ e)).h ∧
    (arrStride2 (arrSlice2 a x y w h) (2 ^ e)).w = (arrSliceStep2 a x y w h (2 ^ e)).w ∧
    (∀ i j, (arrStride2 (arrSlice2 a x y w h) (2 ^ e)).data i j =
      (arrSliceStep2 a x y w h (2 ^ e)).data i j) ∧
    fastComputeTile a (tw, th) e fill (x, y, w, h) =
      trim_tile (arrSliceStep2 a (x * 2 ^ e) (y * 2 ^ e) (w * 2 ^ e) (h * 2 ^ e) (2 ^ e))
        (tw, th) fill := by
  refine ⟨rfl, rfl, fun i j => rfl, rfl⟩

/-- A numpy masked array: data plus a Boolean mask (`true` = masked/invalid).
Element comparison semantics are abstracted as `lt : α → α → Bool`
(numpy element-wise `<`, which is `false` on NaN operands) and
`finite : α → Bool` (`np.isfinite`). -/
structure MArr (α : Type) where
  data : Arr α
  mask : ℕ → ℕ → Bool

/-- An unmasked array viewed as a masked array with an all-false mask. -/
def toMasked (t : Arr α) : MArr α := ⟨t, fun _ _ => false⟩

/-- Embeds `np.ma.masked_equal(t, v)` on an unmasked input. -/
def maskedEqual [DecidableEq α] (t : Arr α) (v : α) : MArr α :=
  ⟨t, fun i j => decide (t.data i j = v)⟩

/-- Embeds `np.ma.masked_less(m, v)`: mask where data `< v`, keeping the old mask. -/
def maskedLess (m : MArr α) (v : α) (lt : α → α → Bool) : MArr α :=
  ⟨m.data, fun i j => m.mask i j || lt (m.data.data i j) v⟩

/-- Embeds `np.ma.masked_greater(m, v)`: mask where data `> v`, keeping the old mask. -/
def maskedGreater (m : MArr α) (v : α) (lt : α → α → Bool) : MArr α :=
  ⟨m.data, fun i j => m.mask i j || lt v (m.data.data i j)⟩

/-- Embeds `np.ma.masked_invalid(t)`: mask non-finite cells of an unmasked input. -/
def maskedInvalid (t : Arr α) (finite : α → Bool) : MArr α :=
  ⟨t, fun i j => !finite (t.data i j)⟩

/-- Embeds `tile[..., ::-1, :]`: reverse the row order. -/
def arrFlipUD (t : Arr α) : Arr α := ⟨t.h, t.w, fun i j => t.data (t.h - 1 - i) j⟩

/-- Embeds `TransformArrayImage.compute_tile_from_source_tile` (tiledimage.py lines
372-396) for a 2-D (`force_2d` is a no-op) and unmasked source tile:
optionally flip the row order, then — when masking is forced — mask by
`masked_equal` when a no-data value is given, else by
`masked_less`/`masked_greater` against the given valid-range bounds, else
(floating dtypes only, `isFloatDtype`) by `masked_invalid`. -/
def transformComputeTile [DecidableEq α] (flipY forceMasked isFloatDtype : Bool)
    (noDataValue : Option α) (validRange : Option (Option α × Option α))
    (lt : α → α → Bool) (finite : α → Bool) (tile : Arr α) : MArr α :=
  let tile := if flipY then arrFlipUD tile else tile
  if forceMasked then
    match noDataValue with
    | some nd => maskedEqual tile nd
    | none =>
      match validRange with
      | some (validMin, validMax) =>
        let m := toMasked tile
        let m := match validMin with
          | some v => maskedLess m v lt
          | none => m
        match validMax with
        | some v => maskedGreater m v lt
        | none => m
      | none =>
        if isFloatDtype then maskedInvalid tile finite else toMasked tile
  else toMasked tile

/-- A 1×1 source tile holding the value 5, outside the valid range `[1, 2]`
and different from the no-data value 0. -/
def cexTile : Arr ℤ := ⟨1, 1, fun _ _ => 5⟩

/-- C4 counterexample: with a no-data sentinel 0 *and* valid range `[1, 2]`
both given, the cell value 5 lies outside the valid range (so the claim
requires it to be masked), yet the computed tile leaves it unmasked —
`masked_equal` alone is applied because the no-data branch shadows the
valid-range branch. -/
theorem transform_mask_or_counterexample :
    (transformComputeTile false true false (some 0) (some (some 1, some 2))
       (fun a b => decide (a < b)) (fun _ => true) cexTile).mask 0 0 = false ∧
    (transformComputeTile false true false (some 0) (some (some 1, some 2))
       (fun a b => decide (a < b)) (fun _ => true) cexTile).data.data 0 0 = 5 ∧
    ((5 : ℤ) < 1 ∨ 2 < (5 : ℤ)) := by
  refine ⟨by decide, by decide, by decide⟩

/-- C4 (amended): with masking forced and an unmasked source tile, exactly
one masking criterion applies, chosen by priority — cells equal to the
no-data sentinel when one is given; otherwise cells below the valid minimum
or above the valid maximum when a valid range is given; otherwise, for
floating dtypes only, non-finite cells — and the data values pass through
unchanged (up to the optional row flip). -/
theorem transform_mask_priority [DecidableEq α] (flipY isFloatDtype : Bool)
    (noDataValue : Option α) (validRange : Option (Option α × Option α))
    (lt : α → α → Bool) (finite : α → Bool) (tile : Arr α) :
    (transformComputeTile flipY true isFloatDtype noDataValue validRange
        lt finite tile).data = (if flipY then arrFlipUD tile else tile) ∧
    (∀ i j,
      (transformComputeTile flipY true isFloatDtype noDataValue validRange
          lt finite tile).mask i j =
        (let v := (if flipY then arrFlipUD tile else tile).data i j
         match noDataValue with
         | some nd => decide (v = nd)
         | none =>
           match validRange with
           | some (validMin, validMax) =>
             (match validMin with
              | some b => lt v b
              | none => false) ||
             (match validMax with
              | some b => lt b v
              | none => false)
           | none => isFloatDtype && !finite v)) := by
  constructor
  · rcases noDataValue with _ | nd
    · rcases validRange with _ | ⟨vmin, vmax⟩
      · rcases isFloatDtype with _ | _
        · rfl
        · rfl
      · rcases vmin with _ | b <;> rcases vmax with _ | b2 <;> rfl
    · rfl
  · intro i j
    rcases noDataValue with _ | nd
    · rcases validRange with _ | ⟨vmin, vmax⟩
      · rcases isFloatDtype with _ | _
        · rfl
        · rfl
      · rcases vmin with _ | b <;> rcases vmax with _ | b2 <;>
          simp [transformComputeTile, toMasked, maskedLess, maskedGreater]
    · rfl

/-- Python float division `1.0 / b`: raises `ZeroDivisionError` when `b = 0`
(the `value_range` entries are Python floats, e.g. the constructor default
`(0.0, 1.0)` or user-supplied bounds).  Real values modelled by `ℚ`. -/
def pyDiv (a b : ℚ) : Except String ℚ :=
  if b = 0 then .error "ZeroDivisionError" else .ok (a / b)

/-- The value pipeline of `ColorMappedRgbaImage.compute_tile_from_source_tile`
(tiledimage.py lines 441-470) on a 2-D unmasked float tile with no no-data
value: `array = masked_invalid(source).clip(value_min, value_max)` (no cell
is non-finite over ℚ, so the mask stays empty and only the clip matters),
then `array -= value_min` and `array *= 1.0 / (value_max - value_min)` —
the division is evaluated before the elementwise multiply, with no guard for
a zero-width range.  The palette lookup and PNG encoding that follow are
external (matplotlib, PIL) and keep the values of this pipeline. -/
def colorMappedNormalize (value_range : ℚ × ℚ) (source_tile : Arr ℚ) :
    Except String (Arr ℚ) :=
  let value_min := value_range.1
  let value_max := value_range.2
  let array : Arr ℚ :=
    ⟨source_tile.h, source_tile.w,
     fun i j => min (max (source_tile.data i j) value_min) value_max⟩
  match pyDiv 1 (value_max - value_min) with
  | .error e => .error e
  | .ok factor =>
    .ok ⟨array.h, array.w, fun i j => (array.data i j - value_min) * factor⟩

/-- C5: at a zero-width value range the clip/normalize pipeline of
`ColorMappedRgbaImage` is *not* guarded — `1.0 / (value_max - value_min)`
divides by zero and the computation raises instead of returning a fixed
constant tile. -/
theorem colorMapped_zero_width_raises :
    colorMappedNormalize (5, 5) ⟨1, 1, fun _ _ => 5⟩ = .error "ZeroDivisionError" := by
  simp [colorMappedNormalize, pyDiv]

/-- Modelled from the spec: a cache entry (id, payload size in bytes) of the
capacity-bounded Cache (module `cache.py`, absent from the source tree);
spec section 3: "Cache entry: id, payload, size". -/
structure SCacheEntry where
  key : String
  size : ℕ
  deriving DecidableEq

/-- Modelled from the spec: the capacity-bounded cache state — entries in
insertion order (oldest first, following the oldest-first eviction policy the
spec recommends), a capacity and a threshold fraction. -/
structure SCache where
  entries : List SCacheEntry
  capacity : ℚ
  threshold : ℚ

/-- The aggregate stored size tracked by the cache. -/
def aggregateSize (l : List SCacheEntry) : ℕ := (l.map (fun e => e.size)).sum

/-- Modelled from the spec: the eviction scan — drop oldest entries while
the aggregate size (including the entry being inserted, of size `newSize`)
still exceeds `limit = capacity * threshold`; never touches the new entry,
which lives outside this list. -/
def evictOldest : List SCacheEntry → ℕ → ℚ → List SCacheEntry
  | [], _, _ => []
  | e :: rest, newSize, limit =>
    if ((aggregateSize (e :: rest) + newSize : ℕ) : ℚ) > limit then
      evictOldest rest newSize limit
    else e :: rest

/-- Modelled from the spec (section 4.3): `put(id, payload)` records the
size of the payload; an existing entry under the same id is replaced; if the
aggregate size now exceeds `capacity`, entries are evicted oldest-first
until the aggregate size is at most `capacity * threshold`; the new entry
itself is never evicted and is appended as the newest entry. -/
def SCache.putValue (c : SCache) (k : String) (size : ℕ) : SCache :=
  let front := c.entries.filter (fun e => e.key ≠ k)
  let front := if ((aggregateSize front + size : ℕ) : ℚ) > c.capacity then
      evictOldest front size (c.capacity * c.threshold)
    else front
  { c with entries := front ++ [⟨k, size⟩] }

/-- C6 counterexample: capacity 10, threshold 1; inserting a single entry of
size 11 into an empty cache leaves aggregate size 11 > capacity, because the
entry just inserted is never evicted by its own insert — the claimed
"aggregate size ≤ capacity after any put" fails. -/
theorem cache_put_capacity_counterexample :
    ¬ ((aggregateSize (SCache.putValue ⟨[], 10, 1⟩ "a" 11).entries : ℚ) ≤ 10) := by
  norm_num [SCache.putValue, evictOldest, aggregateSize]

lemma evictOldest_le_or_nil (l : List SCacheEntry) (size : ℕ) (limit : ℚ) :
    ((aggregateSize (evictOldest l size limit) + size : ℕ) : ℚ) ≤ limit ∨
      evictOldest l size limit = [] := by
  induction l with
  | nil => exact Or.inr rfl
  | cons e rest ih =>
    rw [evictOldest]
    split
    · exact ih
    · rename_i hle
      exact Or.inl (le_of_not_lt hle)

/-- C6 (amended): for threshold in `(0, 1]`, after any put: the aggregate
size is at most the capacity *provided the inserted payload itself fits the
capacity*; when eviction was triggered (aggregate above capacity), it stops
once the aggregate is at most `capacity * threshold` or only the new entry
remains; and the entry just inserted is never evicted by its own insert (it
is the newest entry of the resulting state). -/
theorem cache_put_invariant (c : SCache) (k : String) (size : ℕ)
    (hthr0 : 0 < c.threshold) (hthr1 : c.threshold ≤ 1) :
    (((size : ℚ) ≤ c.capacity →
       ((aggregateSize (c.putValue k size).entries : ℕ) : ℚ) ≤ c.capacity)) ∧
    (((aggregateSize (c.entries.filter (fun e => e.key ≠ k)) + size : ℕ) : ℚ) >
        c.capacity →
      (((aggregateSize (c.putValue k size).entries : ℕ) : ℚ) ≤
          c.capacity * c.threshold ∨
        (c.putValue k size).entries = [⟨k, size⟩])) ∧
    (c.putValue k size).entries.getLast? = some ⟨k, size⟩ := by
  have hagg : ∀ l : List SCacheEntry,
      aggregateSize (l ++ [(⟨k, size⟩ : SCacheEntry)]) = aggregateSize l + size := by
    intro l
    simp [aggregateSize]
  refine ⟨?_, ?_, ?_⟩
  · intro hsize
    show ((aggregateSize (_ ++ [(⟨k, size⟩ : SCacheEntry)]) : ℕ) : ℚ) ≤ c.capacity
    rw [hagg]
    split
    · rename_i htrig
      rcases evictOldest_le_or_nil (c.entries.filter (fun e => e.key ≠ k)) size
          (c.capacity * c.threshold) with hle | hnil
      · calc ((aggregateSize (evictOldest (c.entries.filter (fun e => e.key ≠ k))
                size (c.capacity * c.threshold)) + size : ℕ) : ℚ)
            ≤ c.capacity * c.threshold := hle
          _ ≤ c.capacity * 1 := by
              have hcap : (0 : ℚ) ≤ c.capacity := le_trans (by positivity) hsize
              exact mul_le_mul_of_nonneg_left hthr1 hcap
          _ = c.capacity := mul_one c.capacity
      · rw [hnil]
        simpa [aggregateSize] using hsize
    · rename_i htrig
      push_neg at htrig
      exact_mod_cast htrig
  · intro htrig
    show (((aggregateSize (_ ++ [(⟨k, size⟩ : SCacheEntry)]) : ℕ) : ℚ) ≤ _ ∨
      _ ++ [(⟨k, size⟩ : SCacheEntry)] = [⟨k, size⟩])
    rw [hagg]
    rw [if_pos htrig]
    rcases evictOldest_le_or_nil (c.entries.filter (fun e => e.key ≠ k)) size
        (c.capacity * c.threshold) with hle | hnil
    · exact Or.inl (by exact_mod_cast hle)
    · exact Or.inr (by rw [hnil]; rfl)
  · show (_ ++ [(⟨k, size⟩ : SCacheEntry)]).getLast? = some ⟨k, size⟩
    exact List.getLast?_concat _

theorem cache_put_invariant_witness :
    ((aggregateSize ((SCache.putValue ⟨[⟨"a", 6⟩], 10, 1/2⟩ "b" 5).entries) : ℕ) : ℚ)
        ≤ 10 ∧
    (SCache.putValue ⟨[⟨"a", 6⟩], 10, 1/2⟩ "b" 5).entries.getLast? = some ⟨"b", 5⟩ := by
  have h := cache_put_invariant ⟨[⟨"a", 6⟩], 10, 1/2⟩ "b" 5 (by norm_num) (by norm_num)
  exact ⟨h.1 (by norm_num), h.2.2⟩

/-- A `GeoExtent` (module `geoextent.py`, absent from the source tree):
bounding box in degrees plus orientation and antimeridian metadata, fields
per spec section 3. -/
structure GeoExtent where
  west : ℚ
  south : ℚ
  east : ℚ
  north : ℚ
  invY : Bool
  crossesAntimeridian : Bool

/-- Modelled from the spec: `GeoExtent()` — the default whole-globe extent a
caller substitutes when deriving an extent from coordinates fails
(spec sections 4.1 and 7: "substitute a whole-globe default extent"). -/
def GeoExtent.default : GeoExtent := ⟨-180, -90, 180, 90, false, false⟩

/-- A `TileGrid` (module `tilegrid.py`, absent from the source tree); fields
per spec section 3, with the geo extent. -/
structure TileGrid where
  numLevels : ℕ
  numLevelZeroTilesX : ℕ
  numLevelZeroTilesY : ℕ
  tileWidth : ℕ
  tileHeight : ℕ
  geoExtent : GeoExtent

/-- Embeds `compute_tile_grid` (utils.py lines 75-98), parameterized by the two
absent callees: `GeoExtent.from_coord_arrays` and `TileGrid.create`, both of
which fail by raising `ValueError` (embedded as `Except.error`).  When the
variable lacks `lat`/`lon` coordinates the result is `None`; a failed extent
derivation is replaced by the default whole-globe extent; a failed
`TileGrid.create(width, height, 360, 360, geo_extent)` falls back to
`TileGrid(1, 1, 1, width, height, geo_extent)`. -/
def compute_tile_grid (fromCoordArrays : List ℚ → List ℚ → Except String GeoExtent)
    (tileGridCreate : ℕ → ℕ → ℕ → ℕ → GeoExtent → Except String TileGrid)
    (hasLatLonCoords : Bool) (width height : ℕ) (lons lats : List ℚ) :
    Option TileGrid :=
  if !hasLatLonCoords then none
  else
    let geoExtent := match fromCoordArrays lons lats with
      | .ok g => g
      | .error _ => GeoExtent.default
    match tileGridCreate width height 360 360 geoExtent with
    | .ok tg => some tg
    | .error _ => some ⟨1, 1, 1, width, height, geoExtent⟩

/-- C8: for a variable with `lat` and `lon` coordinates `compute_tile_grid`
always yields a grid (never raises, whatever the callees do); when the
geo-extent derivation fails, the default whole-globe extent is substituted
and processing proceeds; when `TileGrid.create` fails, the result is the
degenerate single-level grid (`num_levels = 1`, one level-zero tile per
axis, tile size equal to the full raster size). -/
theorem compute_tile_grid_never_raises
    (fromCoordArrays : List ℚ → List ℚ → Except String GeoExtent)
    (tileGridCreate : ℕ → ℕ → ℕ → ℕ → GeoExtent → Except String TileGrid)
    (width height : ℕ) (lons lats : List ℚ) :
    (compute_tile_grid fromCoordArrays tileGridCreate true width height
        lons lats).isSome = true ∧
    (∀ e, fromCoordArrays lons lats = .error e →
      compute_tile_grid fromCoordArrays tileGridCreate true width height lons lats =
        (match tileGridCreate width height 360 360 GeoExtent.default with
         | .ok tg => some tg
         | .error _ => some ⟨1, 1, 1, width, height, GeoExtent.default⟩)) ∧
    (∀ g e, fromCoordArrays lons lats = .ok g →
      tileGridCreate width height 360 360 g = .error e →
      compute_tile_grid fromCoordArrays tileGridCreate true width height lons lats =
        some ⟨1, 1, 1, width, height, g⟩) ∧
    (∀ e e2, fromCoordArrays lons lats = .error e →
      tileGridCreate width height 360 360 GeoExtent.default = .error e2 →
      compute_tile_grid fromCoordArrays tileGridCreate true width height lons lats =
        some ⟨1, 1, 1, width, height, GeoExtent.default⟩) := by
  refine ⟨?_, ?_, ?_, ?_⟩
  · unfold compute_tile_grid
    rcases hf : fromCoordArrays lons lats with g | e <;>
      simp only [Bool.not_true, if_neg (by decide : ¬ (false = true))] <;>
      rcases hc : tileGridCreate width height 360 360 _ with tg | e2 <;>
      simp [hf, hc]
  · intro e hf
    unfold compute_tile_grid
    simp [hf]
  · intro g e hf hc
    unfold compute_tile_grid
    simp [hf, hc]
  · intro e e2 hf hc
    unfold compute_tile_grid
    simp [hf, hc]

theorem compute_tile_grid_never_raises_witness :
    compute_tile_grid (fun _ _ => .error "no extent") (fun _ _ _ _ _ => .error "no grid")
        true 2000 1000 [] [] =
      some ⟨1, 1, 1, 2000, 1000, GeoExtent.default⟩ :=
  (compute_tile_grid_never_raises (fun _ _ => .error "no extent")
    (fun _ _ _ _ _ => .error "no grid") 2000 1000 [] []).2.2.2
    "no extent" "no grid" rfl rfl

end XcubeServer
